import Mathlib

/-!
Verification of the LOCO CV splitter from `loco-ridge-steels.ipynb`
(the `LocoCV` class, a scikit-learn-style cross-validator).

The splitter is embedded shallowly:

* a Feature Matrix is a list of rows of numeric features;
* a Clustering Algorithm is its `fit_predict` function, a (deterministic)
  map from a Feature Matrix to one label per row;
* `LocoCV.iterTestMasks` embeds `LocoCV._iter_test_masks`: it computes
  `np.unique(labels)` (sorted distinct label values), fails when fewer than
  two distinct labels exist, and otherwise yields one boolean mask
  `labels == label` per distinct label;
* `LocoCV.split` embeds the `split` method the class inherits from the
  external `BaseCrossValidator` collaborator (its code is not part of this
  repository): each test mask is converted to index positions and the train
  indices are the complement;
* `LocoCV.get_n_splits` embeds `LocoCV.get_n_splits`.

Failure is modelled with `Except String`; the generator is modelled as the
finite list of its yields (the degenerate-clustering check fires before the
first yield, so an erroring call yields no partitions).
-/

/-- A Feature Matrix: an ordered collection of rows of numeric features. -/
abbrev FeatureMatrix := List (List Int)

/-- `np.unique(labels)`: the distinct label values in ascending sorted
order.  (`List.dedup` removes duplicates; `List.insertionSort` sorts.) -/
def npUnique (labels : List Int) : List Int :=
  List.insertionSort (fun a b => a ≤ b) labels.dedup

/-- The distinct label values in first-occurrence order.  This follows the
spec's ordering sentence ("ordered by first appearance in the label
sequence"), for comparison with `npUnique`, which sorts by value. -/
def firstOccurrenceUnique (labels : List Int) : List Int :=
  labels.foldl (fun acc x => if x ∈ acc then acc else acc ++ [x]) []

/-- The `LocoCV` splitter.  Its one configuration parameter is the
clusterer, represented by its `fit_predict` capability: one label per row
of the given Feature Matrix. -/
structure LocoCV where
  clusterer : FeatureMatrix → List Int

/-- The elementwise comparison `labels == label`: a boolean mask with one
entry per row, true where that row's label equals `v`. -/
def labelMask (labels : List Int) (v : Int) : List Bool :=
  labels.map (fun l => l == v)

/-- Embeds `LocoCV._iter_test_masks`: fit the clusterer, compute the
distinct labels with `np.unique`, raise when fewer than 2 distinct labels
exist, and otherwise yield the boolean mask `labels == label` for each
distinct label in `np.unique` order.  The arguments `y` and `groups` are
accepted and ignored, as in the source. -/
def LocoCV.iterTestMasks (cv : LocoCV) (X : FeatureMatrix)
    (y groups : Option (List Int)) : Except String (List (List Bool)) :=
  let labels := cv.clusterer X
  let clust_labels := npUnique labels
  if clust_labels.length < 2 then
    Except.error "Clusterer produced < 2 labels. Cannot use for LOCO CV"
  else
    Except.ok (clust_labels.map (fun label => labelMask labels label))

/-- The positions at which a boolean mask holds: `indices[mask]`. -/
def trueIndices (mask : List Bool) : List Nat :=
  (List.range mask.length).filter (fun i => mask.getD i false)

/-- The positions at which a boolean mask fails:
`indices[np.logical_not(mask)]`. -/
def falseIndices (mask : List Bool) : List Nat :=
  (List.range mask.length).filter (fun i => !(mask.getD i false))

/-- Modelled from the spec: the `split` method is inherited from the
external scikit-learn `BaseCrossValidator`, whose code is not part of this
repository.  Per the spec, each boolean test mask yielded by
`_iter_test_masks` is converted to index positions and the train set is
the complement of the test set. -/
def LocoCV.split (cv : LocoCV) (X : FeatureMatrix)
    (y groups : Option (List Int)) : Except String (List (List Nat × List Nat)) :=
  match cv.iterTestMasks X y groups with
  | Except.error e => Except.error e
  | Except.ok masks => Except.ok (masks.map (fun m => (falseIndices m, trueIndices m)))

/-- Embeds `LocoCV.get_n_splits`: re-fit the clusterer and count the
distinct labels (`len(np.unique(...))`).  No degenerate-clustering check
is performed here, unlike in `_iter_test_masks`. -/
def LocoCV.get_n_splits (cv : LocoCV) (X : FeatureMatrix)
    (y groups : Option (List Int)) : Nat :=
  (npUnique (cv.clusterer X)).length

/-- A stub Clustering Algorithm returning a fixed label sequence,
regardless of the Feature Matrix (deterministic by construction). -/
def stubCV (labels : List Int) : LocoCV :=
  ⟨fun _ => labels⟩

/-- A 4-row Feature Matrix for the minimum viable test case. -/
def X4 : FeatureMatrix := [[0], [0], [1], [1]]

/-- A 3-row Feature Matrix for the singleton-cluster test case. -/
def X3 : FeatureMatrix := [[0], [1], [1]]

/-- A 2-row Feature Matrix. -/
def X2 : FeatureMatrix := [[0], [1]]

/-- The partition derived from the mask of one label value: train indices
where the mask is false, test indices where it is true. -/
def partFor (labels : List Int) (v : Int) : List Nat × List Nat :=
  (falseIndices (labelMask labels v), trueIndices (labelMask labels v))

theorem mem_npUnique {a : Int} {l : List Int} : a ∈ npUnique l ↔ a ∈ l := by
  unfold npUnique
  rw [(List.perm_insertionSort _ _).mem_iff, List.mem_dedup]

theorem nodup_npUnique (l : List Int) : (npUnique l).Nodup :=
  ((List.perm_insertionSort _ _).nodup_iff).mpr l.nodup_dedup

theorem sorted_npUnique (l : List Int) :
    List.Sorted (fun a b : Int => a ≤ b) (npUnique l) :=
  List.sorted_insertionSort _ _

theorem labelMask_length (labels : List Int) (v : Int) :
    (labelMask labels v).length = labels.length :=
  List.length_map _ _

theorem labelMask_getD (labels : List Int) (v : Int) (r : Nat)
    (hr : r < labels.length) :
    (labelMask labels v).getD r false = (labels.getD r 0 == v) := by
  unfold labelMask
  rw [List.getD_eq_getElem?_getD, List.getD_eq_getElem?_getD, List.getElem?_map,
    List.getElem?_eq_getElem hr]
  rfl

theorem mem_trueIndices (m : List Bool) (r : Nat) :
    r ∈ trueIndices m ↔ r < m.length ∧ m.getD r false = true := by
  unfold trueIndices
  simp [List.mem_filter, List.mem_range]

theorem mem_falseIndices (m : List Bool) (r : Nat) :
    r ∈ falseIndices m ↔ r < m.length ∧ m.getD r false = false := by
  unfold falseIndices
  simp [List.mem_filter, List.mem_range]

theorem mem_trueIndices_labelMask (labels : List Int) (v : Int) (r : Nat) :
    r ∈ trueIndices (labelMask labels v) ↔
      r < labels.length ∧ labels.getD r 0 = v := by
  rw [mem_trueIndices, labelMask_length]
  constructor
  · rintro ⟨hr, hb⟩
    rw [labelMask_getD _ _ _ hr] at hb
    exact ⟨hr, by simpa using hb⟩
  · rintro ⟨hr, hb⟩
    refine ⟨hr, ?_⟩
    rw [labelMask_getD _ _ _ hr]
    exact beq_iff_eq.mpr hb

theorem mem_falseIndices_labelMask (labels : List Int) (v : Int) (r : Nat) :
    r ∈ falseIndices (labelMask labels v) ↔
      r < labels.length ∧ ¬ labels.getD r 0 = v := by
  rw [mem_falseIndices, labelMask_length]
  constructor
  · rintro ⟨hr, hb⟩
    rw [labelMask_getD _ _ _ hr] at hb
    exact ⟨hr, by simpa using hb⟩
  · rintro ⟨hr, hb⟩
    refine ⟨hr, ?_⟩
    rw [labelMask_getD _ _ _ hr]
    exact beq_eq_false_iff_ne.mpr hb

theorem split_ok_iff (cv : LocoCV) (X : FeatureMatrix)
    (y groups : Option (List Int)) (parts : List (List Nat × List Nat)) :
    cv.split X y groups = Except.ok parts ↔
      2 ≤ (npUnique (cv.clusterer X)).length ∧
      parts = (npUnique (cv.clusterer X)).map (partFor (cv.clusterer X)) := by
  unfold LocoCV.split LocoCV.iterTestMasks partFor
  by_cases h : (npUnique (cv.clusterer X)).length < 2
  · simp only [h, if_true]
    constructor
    · intro hc
      exact absurd hc (by simp)
    · rintro ⟨h2, -⟩
      omega
  · simp only [h, if_false]
    rw [List.map_map]
    constructor
    · intro hc
      refine ⟨by omega, ?_⟩
      simpa using hc.symm
    · rintro ⟨-, rfl⟩
      rfl

theorem getD_eq_get (l : List Int) (i : Nat) (h : i < l.length) :
    l.getD i 0 = l.get ⟨i, h⟩ := by
  rw [List.getD_eq_getElem?_getD, List.getElem?_eq_getElem h]
  rfl

theorem getD_mem_of_lt (l : List Int) (r : Nat) (h : r < l.length) :
    l.getD r 0 ∈ l := by
  rw [getD_eq_get l r h]
  exact List.get_mem l r h

theorem exists_ne_of_two_le_length_nodup {l : List Int} (h2 : 2 ≤ l.length)
    (hnd : l.Nodup) (v : Int) : ∃ w ∈ l, w ≠ v := by
  match l, h2, hnd with
  | a :: b :: rest, _, hnd =>
    have hab : a ≠ b := by
      intro hab
      exact (List.nodup_cons.mp hnd).1 (hab ▸ List.mem_cons_self b rest)
    by_cases hav : a = v
    · exact ⟨b, List.mem_cons_of_mem a (List.mem_cons_self b rest),
        fun hbv => hab (hav.trans hbv.symm)⟩
    · exact ⟨a, List.mem_cons_self a (b :: rest), hav⟩

/-- C1: for a Feature Matrix with n rows and a deterministic clusterer
producing at least 2 distinct labels, the test sets of the partitions
yielded by one `split(X)` call are pairwise disjoint and their union is
the full index set: every row index below n lies in some test set, and no
index lies in two. -/
theorem split_testSets_partition (cv : LocoCV) (X : FeatureMatrix)
    (y groups : Option (List Int)) (n : Nat) (parts : List (List Nat × List Nat))
    (hn : (cv.clusterer X).length = n)
    (h : cv.split X y groups = Except.ok parts) :
    List.Pairwise (fun p q : List Nat × List Nat => ∀ r, r ∈ p.2 → r ∉ q.2) parts ∧
    ∀ r : Nat, (∃ p ∈ parts, r ∈ p.2) ↔ r < n := by
  rcases (split_ok_iff cv X y groups parts).mp h with ⟨h2, rfl⟩
  constructor
  · rw [List.pairwise_map]
    refine (nodup_npUnique (cv.clusterer X)).imp ?_
    intro a b hab r hra hrb
    have ha := (mem_trueIndices_labelMask (cv.clusterer X) a r).mp hra
    have hb := (mem_trueIndices_labelMask (cv.clusterer X) b r).mp hrb
    exact hab (ha.2.symm.trans hb.2)
  · intro r
    constructor
    · rintro ⟨p, hp, hr⟩
      rcases List.mem_map.mp hp with ⟨v, hv, rfl⟩
      have := (mem_trueIndices_labelMask (cv.clusterer X) v r).mp hr
      exact hn ▸ this.1
    · intro hr
      have hrl : r < (cv.clusterer X).length := hn ▸ hr
      refine ⟨partFor (cv.clusterer X) ((cv.clusterer X).getD r 0),
        List.mem_map_of_mem _ (mem_npUnique.mpr (getD_mem_of_lt _ r hrl)), ?_⟩
      exact (mem_trueIndices_labelMask (cv.clusterer X) _ r).mpr ⟨hrl, rfl⟩

/-- C1 witness: the property instantiated at 4 rows with labels
[0,0,1,1]. -/
theorem split_testSets_partition_witness :
    List.Pairwise (fun p q : List Nat × List Nat => ∀ r, r ∈ p.2 → r ∉ q.2)
      [([2, 3], [0, 1]), ([0, 1], [2, 3])] ∧
    ∀ r : Nat,
      (∃ p ∈ [(([2, 3] : List Nat), ([0, 1] : List Nat)), ([0, 1], [2, 3])],
        r ∈ p.2) ↔ r < 4 :=
  split_testSets_partition (stubCV [0, 0, 1, 1]) X4 none none 4
    [([2, 3], [0, 1]), ([0, 1], [2, 3])] rfl rfl

/-- C2: for every partition (train, test) produced by `split(X)` on a
Feature Matrix with n rows, the train indices are exactly the indices
below n that are not test indices, and train and test are disjoint. -/
theorem split_train_is_complement (cv : LocoCV) (X : FeatureMatrix)
    (y groups : Option (List Int)) (n : Nat) (parts : List (List Nat × List Nat))
    (hn : (cv.clusterer X).length = n)
    (h : cv.split X y groups = Except.ok parts) :
    ∀ p ∈ parts, (∀ r : Nat, r ∈ p.1 ↔ r < n ∧ r ∉ p.2) ∧
      ∀ r : Nat, ¬ (r ∈ p.1 ∧ r ∈ p.2) := by
  rcases (split_ok_iff cv X y groups parts).mp h with ⟨-, rfl⟩
  intro p hp
  rcases List.mem_map.mp hp with ⟨v, hv, rfl⟩
  constructor
  · intro r
    rw [show (partFor (cv.clusterer X) v).1 = falseIndices (labelMask (cv.clusterer X) v)
        from rfl,
      show (partFor (cv.clusterer X) v).2 = trueIndices (labelMask (cv.clusterer X) v)
        from rfl,
      mem_falseIndices_labelMask, mem_trueIndices_labelMask, hn]
    constructor
    · rintro ⟨hr, hne⟩
      exact ⟨hr, fun hc => hne hc.2⟩
    · rintro ⟨hr, hne⟩
      exact ⟨hr, fun hc => hne ⟨hr, hc⟩⟩
  · rintro r ⟨h1, h2⟩
    have ha := (mem_falseIndices_labelMask (cv.clusterer X) v r).mp h1
    have hb := (mem_trueIndices_labelMask (cv.clusterer X) v r).mp h2
    exact ha.2 hb.2

/-- C2 witness: the property instantiated at 3 rows with labels [4,4,9],
at the first partition (train=[2], test=[0,1]) and row index 2. -/
theorem split_train_is_complement_witness :
    ((2 : Nat) ∈ ([2] : List Nat) ↔ 2 < 3 ∧ (2 : Nat) ∉ ([0, 1] : List Nat)) ∧
    ¬ ((2 : Nat) ∈ ([2] : List Nat) ∧ (2 : Nat) ∈ ([0, 1] : List Nat)) :=
  have h := split_train_is_complement (stubCV [4, 4, 9]) X3 none none 3
    [([2], [0, 1]), ([0, 1], [2])] rfl rfl
  have hp := h ([2], [0, 1]) (List.mem_cons_self _ _)
  ⟨hp.1 2, hp.2 2⟩

/-- C3: when the clusterer produces fewer than 2 distinct labels,
`split(X)` fails with the insufficient-clusters error; no partition list is
produced. -/
theorem split_fails_on_insufficient_clusters (cv : LocoCV) (X : FeatureMatrix)
    (y groups : Option (List Int))
    (h : (cv.clusterer X).dedup.length < 2) :
    cv.split X y groups =
      Except.error "Clusterer produced < 2 labels. Cannot use for LOCO CV" := by
  have hlen : (npUnique (cv.clusterer X)).length < 2 := by
    have := (List.perm_insertionSort (fun a b : Int => a ≤ b) (cv.clusterer X).dedup).length_eq
    unfold npUnique
    omega
  unfold LocoCV.split LocoCV.iterTestMasks
  simp [hlen]

/-- C3 witness: a stub clusterer assigning every row the single label 5
makes `split` fail. -/
theorem split_fails_on_insufficient_clusters_witness :
    (stubCV [5, 5, 5]).split X3 none none =
      Except.error "Clusterer produced < 2 labels. Cannot use for LOCO CV" :=
  split_fails_on_insufficient_clusters (stubCV [5, 5, 5]) X3 none none (by decide)

/-- C4 counterexample: with stub labels [1,0], the distinct labels in
first-occurrence order are [1,0], so ordering by first appearance would
yield the test sets [[0],[1]]; the code enumerates `np.unique` order and
actually yields first the partition with test set [1]. -/
theorem split_firstOccurrence_order_counterexample :
    firstOccurrenceUnique ((stubCV [1, 0]).clusterer X2) = [1, 0] ∧
    ((firstOccurrenceUnique ((stubCV [1, 0]).clusterer X2)).map
      (fun v => trueIndices (labelMask ((stubCV [1, 0]).clusterer X2) v)) =
        [[0], [1]]) ∧
    (stubCV [1, 0]).split X2 none none = Except.ok [([0], [1]), ([1], [0])] :=
  ⟨by decide, by decide, rfl⟩

/-- C4 amended: `split(X)` yields its partitions in ascending sorted order
of the distinct label values (the `np.unique` enumeration), not in
first-appearance order: the partition list is the image of the sorted
distinct-label list. -/
theorem split_order_sorted_unique (cv : LocoCV) (X : FeatureMatrix)
    (y groups : Option (List Int)) (parts : List (List Nat × List Nat))
    (h : cv.split X y groups = Except.ok parts) :
    parts = (npUnique (cv.clusterer X)).map (partFor (cv.clusterer X)) ∧
    List.Sorted (fun a b : Int => a ≤ b) (npUnique (cv.clusterer X)) := by
  rcases (split_ok_iff cv X y groups parts).mp h with ⟨-, rfl⟩
  exact ⟨rfl, sorted_npUnique _⟩

/-- C4 witness: the amended ordering property instantiated at stub labels
[1,0]. -/
theorem split_order_sorted_unique_witness :
    ([(([0] : List Nat), ([1] : List Nat)), ([1], [0])] =
      (npUnique ((stubCV [1, 0]).clusterer X2)).map
        (partFor ((stubCV [1, 0]).clusterer X2))) ∧
    List.Sorted (fun a b : Int => a ≤ b) (npUnique ((stubCV [1, 0]).clusterer X2)) :=
  split_order_sorted_unique (stubCV [1, 0]) X2 none none
    [([0], [1]), ([1], [0])] rfl

/-- C5: with a deterministic clusterer, the number of partitions yielded by
`split(X)` equals the integer returned by `get_n_splits(X)`, which equals
the number of distinct labels the clusterer produces on X. -/
theorem get_n_splits_agrees_with_split (cv : LocoCV) (X : FeatureMatrix)
    (y groups : Option (List Int)) (parts : List (List Nat × List Nat))
    (h : cv.split X y groups = Except.ok parts) :
    parts.length = cv.get_n_splits X y groups ∧
    cv.get_n_splits X y groups = (cv.clusterer X).dedup.length := by
  rcases (split_ok_iff cv X y groups parts).mp h with ⟨-, rfl⟩
  constructor
  · rw [List.length_map]
    rfl
  · exact (List.perm_insertionSort (fun a b : Int => a ≤ b) (cv.clusterer X).dedup).length_eq

/-- C5 witness: the count agreement instantiated at stub labels
[0,0,1,1]. -/
theorem get_n_splits_agrees_with_split_witness :
    ([(([2, 3] : List Nat), ([0, 1] : List Nat)), ([0, 1], [2, 3])].length =
      (stubCV [0, 0, 1, 1]).get_n_splits X4 none none) ∧
    (stubCV [0, 0, 1, 1]).get_n_splits X4 none none =
      ((stubCV [0, 0, 1, 1]).clusterer X4).dedup.length :=
  get_n_splits_agrees_with_split (stubCV [0, 0, 1, 1]) X4 none none
    [([2, 3], [0, 1]), ([0, 1], [2, 3])] rfl

/-- C6: `get_n_splits(X)` raises no error when the clusterer produces
fewer than 2 distinct labels: it returns the distinct-label count in the
very situation where `split(X)` fails. -/
theorem get_n_splits_no_degenerate_check (cv : LocoCV) (X : FeatureMatrix)
    (y groups : Option (List Int))
    (h : (cv.clusterer X).dedup.length < 2) :
    cv.get_n_splits X y groups = (cv.clusterer X).dedup.length ∧
    cv.split X y groups =
      Except.error "Clusterer produced < 2 labels. Cannot use for LOCO CV" := by
  have hlen : (npUnique (cv.clusterer X)).length = (cv.clusterer X).dedup.length :=
    (List.perm_insertionSort (fun a b : Int => a ≤ b) (cv.clusterer X).dedup).length_eq
  refine ⟨hlen, ?_⟩
  unfold LocoCV.split LocoCV.iterTestMasks
  simp [hlen.symm ▸ h]

/-- C6 witness: with the single stub label 7 on 2 rows, `get_n_splits`
returns 1 while `split` fails. -/
theorem get_n_splits_no_degenerate_check_witness :
    (stubCV [7, 7]).get_n_splits X2 none none =
      ((stubCV [7, 7]).clusterer X2).dedup.length ∧
    (stubCV [7, 7]).split X2 none none =
      Except.error "Clusterer produced < 2 labels. Cannot use for LOCO CV" :=
  get_n_splits_no_degenerate_check (stubCV [7, 7]) X2 none none (by decide)

/-- C10: every partition yielded by `split(X)` has a nonempty test set and
a nonempty train set. -/
theorem split_parts_nonempty (cv : LocoCV) (X : FeatureMatrix)
    (y groups : Option (List Int)) (parts : List (List Nat × List Nat))
    (h : cv.split X y groups = Except.ok parts) :
    ∀ p ∈ parts, p.2 ≠ [] ∧ p.1 ≠ [] := by
  rcases (split_ok_iff cv X y groups parts).mp h with ⟨h2, rfl⟩
  intro p hp
  rcases List.mem_map.mp hp with ⟨v, hv, rfl⟩
  have hperm := List.perm_insertionSort (fun a b : Int => a ≤ b) (cv.clusterer X).dedup
  constructor
  · have hvl : v ∈ cv.clusterer X := mem_npUnique.mp hv
    rcases List.mem_iff_get.mp hvl with ⟨⟨i, hi⟩, hgi⟩
    intro hemp
    have hmem : i ∈ trueIndices (labelMask (cv.clusterer X) v) :=
      (mem_trueIndices_labelMask (cv.clusterer X) v i).mpr
        ⟨hi, (getD_eq_get _ i hi).trans hgi⟩
    have hemp2 : trueIndices (labelMask (cv.clusterer X) v) = [] := hemp
    rw [hemp2] at hmem
    exact List.not_mem_nil i hmem
  · rcases exists_ne_of_two_le_length_nodup h2 (nodup_npUnique (cv.clusterer X)) v
      with ⟨w, hw, hwv⟩
    have hwl : w ∈ cv.clusterer X := mem_npUnique.mp hw
    rcases List.mem_iff_get.mp hwl with ⟨⟨j, hj⟩, hgj⟩
    intro hemp
    have hmem : j ∈ falseIndices (labelMask (cv.clusterer X) v) :=
      (mem_falseIndices_labelMask (cv.clusterer X) v j).mpr
        ⟨hj, fun hc => hwv (((getD_eq_get _ j hj).symm.trans hc ▸ hgj).symm ▸ rfl)⟩
    have hemp1 : falseIndices (labelMask (cv.clusterer X) v) = [] := hemp
    rw [hemp1] at hmem
    exact List.not_mem_nil j hmem

/-- C10 witness: nonemptiness of train and test sets instantiated at stub
labels [2,3,3], at the first partition (train=[1,2], test=[0]). -/
theorem split_parts_nonempty_witness :
    (([0] : List Nat) ≠ []) ∧ (([1, 2] : List Nat) ≠ []) :=
  have h := split_parts_nonempty (stubCV [2, 3, 3]) X3 none none
    [([1, 2], [0]), ([0], [1, 2])] rfl
  h ([1, 2], [0]) (List.mem_cons_self _ _)

/-- C7: with 4 rows and stub labels [0,0,1,1], `split(X)` yields exactly
two partitions, (train={2,3}, test={0,1}) and (train={0,1}, test={2,3}). -/
theorem split_minimum_viable_case :
    (stubCV [0, 0, 1, 1]).split X4 none none =
      Except.ok [([2, 3], [0, 1]), ([0, 1], [2, 3])] := by
  rfl

/-- C8: with 3 rows and stub labels [0,1,1], `split(X)` raises no error
and yields the partition (train={1,2}, test={0}) and the partition
(train={0}, test={1,2}): a size-1 test set is legal. -/
theorem split_singleton_cluster :
    (stubCV [0, 1, 1]).split X3 none none =
      Except.ok [([1, 2], [0]), ([0], [1, 2])] := by
  rfl

/-- C9: the output of `split` does not depend on the optional `y` argument
nor on the `groups` argument: both are ignored by the splitting logic. -/
theorem split_ignores_y_and_groups (cv : LocoCV) (X : FeatureMatrix)
    (y1 y2 g1 g2 : Option (List Int)) :
    cv.split X y1 g1 = cv.split X y2 g2 :=
  rfl
